import Mathlib

/-!
# FamilyNest server — verification of the permission / invitation / batch-update logic

Shallow embedding of the Flask route handlers of the FamilyNest Supabase backend
(`src/app/utils.py`, `api_data.py`, `api_files.py`, `api_sharing.py`, `api_trees.py`,
`auth.py`).  The remote Supabase service (Postgres tables, object storage, auth users)
is modelled as an explicit `DB` state record; every handler is a pure function from the
request data and the current `DB` to a `Response` together with the successor `DB`.
Python `datetime` values are modelled as integers (seconds), user / tree identifiers as
strings, and JSON payload fields that may be absent or `null` as `Option`.
-/

namespace FamilyNest

abbrev UserId := String

abbrev TreeId := String

/-- A row of the `trees` table (`editor_ids` / `viewer_ids` are Postgres arrays; a
`NULL` array is read back through `tree.get(...) or []`, so it is modelled directly
as a list). -/
structure Tree where
  id : TreeId
  name : String
  owner_id : UserId
  editor_ids : List UserId
  viewer_ids : List UserId
  is_public : Bool
  allow_file_uploads : Bool
  is_demo : Bool
  deriving Repr, DecidableEq

/-- A row of the `tree_invitations` table.  `expires_at` is an ISO timestamp in the
source, compared with `datetime.now`; it is modelled as an integer instant.
`usage_limit` is a nullable non-negative count. -/
structure Invitation where
  token : String
  tree_id : TreeId
  role : String
  expires_at : Int
  usage_limit : Option Nat
  used_by_users : List UserId
  deriving Repr, DecidableEq

/-- The `photo` field of a person's JSON data blob.  The handlers treat two shapes:
a plain URL string (`isinstance(person_data["photo"], str)`) and an object carrying a
`url` key (`data.get("photo", {}).get("url", "")`). -/
inductive PhotoField where
  | str (s : String)
  | obj (url : Option String)
  deriving Repr, DecidableEq

/-- One entry of a person's `documents` list; `url = none` models an absent `url` key.
(The handlers only ever read the `url` key of a document object.) -/
structure DocumentField where
  url : Option String
  deriving Repr, DecidableEq

/-- The structured `data` blob of a person, restricted to the fields the handlers
inspect (`id`, `photo`, `documents`).  The remaining free-text fields are passed to
the external `nh3.clean` sanitizer and stored opaquely; none of the verified
properties mention them, so they are not carried in the model. -/
structure PersonData where
  id : Int
  photo : Option PhotoField
  documents : Option (List DocumentField)
  deriving Repr, DecidableEq

/-- A row of the `persons` table: the `id` column is the per-tree numeric identifier
and `data` the JSON blob. -/
structure PersonRow where
  tree_id : TreeId
  id : Int
  data : PersonData
  deriving Repr, DecidableEq

/-- The remote Supabase state: the `trees`, `tree_invitations` and `persons` tables,
the object-storage bucket (a set of object paths) and the auth users reachable
through the `get_user_id_by_email` stored procedure. -/
structure DB where
  trees : List Tree
  invitations : List Invitation
  persons : List PersonRow
  storage : List String
  users_by_email : List (String × UserId)
  deriving Repr, DecidableEq

/-- `supabase.table("trees").select(...).eq("id", tree_id).single().execute()`:
`single()` raises when no row matches, which every caller turns into a
not-found result, so the lookup is modelled as `Option`. -/
def findTree (db : DB) (tree_id : TreeId) : Option Tree :=
  db.trees.find? (fun t => t.id == tree_id)

/-- `supabase.table("tree_invitations").select(...).eq("token", token).single()`. -/
def findInvitation (db : DB) (token : String) : Option Invitation :=
  db.invitations.find? (fun i => i.token == token)

/-- `supabase.table("trees").update({...}).eq("id", tree_id)`: the update is applied
to every row whose `id` matches. -/
def updateTree (db : DB) (tree_id : TreeId) (f : Tree → Tree) : DB :=
  { db with trees := db.trees.map (fun t => if t.id == tree_id then f t else t) }

/-- `supabase.table("tree_invitations").update({...}).eq("token", token)`. -/
def updateInvitation (db : DB) (token : String) (f : Invitation → Invitation) : DB :=
  { db with invitations := db.invitations.map (fun i => if i.token == token then f i else i) }

/-- Python `str.startswith`, modelled at the character level (kernel-executable). -/
def pyStartsWith (s pre : String) : Bool := pre.data.isPrefixOf s.data

/-- Python `str.strip()`: drop leading and trailing whitespace. -/
def pyTrim (s : String) : String :=
  ⟨((s.data.dropWhile (fun c => c.isWhitespace)).reverse.dropWhile
      (fun c => c.isWhitespace)).reverse⟩

/-- Python `str.lower()` (the URLs at issue are ASCII). -/
def pyToLower (s : String) : String := ⟨s.data.map Char.toLower⟩

/-- Worker for `pyReplace`, structurally recursive on a fuel argument so that it
evaluates inside the kernel; with fuel at least the length of the subject list it
replaces every occurrence of `pat`, scanning left to right. -/
def replaceAllAux (pat rep : List Char) : Nat → List Char → List Char
  | _, [] => []
  | 0, l => l
  | Nat.succ n, c :: rest =>
    if pat ≠ [] ∧ pat.isPrefixOf (c :: rest) then
      rep ++ replaceAllAux pat rep n (rest.drop (pat.length - 1))
    else c :: replaceAllAux pat rep n rest

/-- Python `str.replace(pat, rep)` for the non-empty patterns the handlers use. -/
def pyReplace (s pat rep : String) : String :=
  ⟨replaceAllAux pat.data rep.data s.data.length s.data⟩

/-- The permission dictionary returned by `get_tree_and_user_permissions`. -/
structure Perms where
  can_edit : Bool
  can_view : Bool
  tree : Tree
  deriving Repr, DecidableEq

/-- `get_tree_and_user_permissions` (`src/app/utils.py`).  The Python function only
issues a single `select` against the `trees` table and performs no writes, so it is
embedded as a read-only function of the `DB`.  A missing tree row makes `single()`
raise, which the `except` clause maps to `None`. -/
def get_tree_and_user_permissions (db : DB) (tree_id : TreeId) (user_id : Option UserId) :
    Option Perms :=
  match findTree db tree_id with
  | none => none
  | some tree_data =>
    let can_view := tree_data.is_public
    let can_edit := false
    match user_id with
    | none => some { can_edit := can_edit, can_view := can_view, tree := tree_data }
    | some u =>
      let is_owner := tree_data.owner_id == u
      let is_editor := tree_data.editor_ids.contains u
      let is_viewer := tree_data.viewer_ids.contains u
      let can_edit := is_owner || is_editor
      let can_view := can_view || is_owner || is_editor || is_viewer
      some { can_edit := can_edit, can_view := can_view, tree := tree_data }

/-- Spec-side predicate: the acting user is the tree's owner (false for anonymous
callers). -/
def isOwnerOf (t : Tree) : Option UserId → Bool
  | none => false
  | some u => t.owner_id == u

/-- Spec-side predicate: the acting user is in the tree's editor set. -/
def isEditorOf (t : Tree) : Option UserId → Bool
  | none => false
  | some u => t.editor_ids.contains u

/-- Spec-side predicate: the acting user is in the tree's viewer set. -/
def isViewerOf (t : Tree) : Option UserId → Bool
  | none => false
  | some u => t.viewer_ids.contains u

/-- The body of an HTTP response produced by a handler: the JSON shapes the endpoints
emit, a redirect, a rendered HTML template, or raw file bytes (which no handler of
this backend ever produces — files are served by redirecting to a signed URL). -/
inductive Body where
  | jsonMsg (success : Bool) (error : String)
  | jsonId (id : Int)
  | jsonLink (link : String)
  | jsonTreeRow (t : Tree)
  | jsonUrl (filename : String) (url : String)
  | redirectTo (url : String)
  | htmlPage (template : String)
  | fileBytes (content : List Nat)
  deriving Repr, DecidableEq

/-- Whether a response body is a raw byte stream. -/
def Body.isFileBytes : Body → Bool
  | .fileBytes _ => true
  | _ => false

structure Response where
  status : Nat
  body : Body
  deriving Repr, DecidableEq

/-- A JSON error response `{error: msg, success: false}` with the given status. -/
def errResp (status : Nat) (msg : String) : Response :=
  { status := status, body := .jsonMsg false msg }

/-- A JSON success response `{message: msg, success: true}`. -/
def okResp (msg : String) : Response :=
  { status := 200, body := .jsonMsg true msg }

/-- `usage_limit is not None and len(used_by_users) >= usage_limit`. -/
def usageExhausted (usage_limit : Option Nat) (used : List UserId) : Bool :=
  match usage_limit with
  | some n => n ≤ used.length
  | none => false

/-- `process_invitation` (`src/app/utils.py`).  `now` is the instant returned by
`datetime.now(timezone.utc)`.  Every early `return None` happens before any write,
and the two writes (role grant on the tree, usage record on the invitation) sit on
the single success path; a missing invitation or tree row makes `single()` raise,
which the surrounding `except` maps to `None` with no writes. -/
def process_invitation (db : DB) (now : Int) (token_str : String) (user_id_str : UserId) :
    Option TreeId × DB :=
  match findInvitation db token_str with
  | none => (none, db)
  | some invitation =>
    if invitation.expires_at < now then (none, db)
    else
      let used_by_users := invitation.used_by_users
      let usage_limit := invitation.usage_limit
      if usageExhausted usage_limit used_by_users then (none, db)
      else if used_by_users.contains user_id_str then (some invitation.tree_id, db)
      else
        let tree_id := invitation.tree_id
        let role := invitation.role
        match findTree db tree_id with
        | none => (none, db)
        | some tree =>
          let is_already_member :=
            user_id_str == tree.owner_id ||
            tree.editor_ids.contains user_id_str ||
            tree.viewer_ids.contains user_id_str
          let db1 :=
            if !is_already_member then
              if role == "editor" then
                updateTree db tree_id (fun t => { t with editor_ids := tree.editor_ids ++ [user_id_str] })
              else if role == "viewer" then
                updateTree db tree_id (fun t => { t with viewer_ids := tree.viewer_ids ++ [user_id_str] })
              else db
            else db
          let db2 := updateInvitation db1 token_str
            (fun i => { i with used_by_users := used_by_users ++ [user_id_str] })
          (some tree_id, db2)

/-- `join_by_token` (`src/app/auth.py`).  The handler first re-reads the invitation
itself and renders the `invalid_link.html` template (status 400) when the row is
missing, expired, or its usage record has reached the limit; only then does it hand
over to `process_invitation` for a logged-in user.  For an anonymous visitor the
token is parked in the session (not modelled) and the client is redirected to the
login page. -/
def join_by_token (db : DB) (now : Int) (token_str : String) (session_user : Option UserId) :
    Response × DB :=
  match findInvitation db token_str with
  | none => ({ status := 400, body := .htmlPage "invalid_link.html" }, db)
  | some invitation =>
    let is_expired := decide (invitation.expires_at < now)
    let is_full := usageExhausted invitation.usage_limit invitation.used_by_users
    if is_expired || is_full then
      ({ status := 400, body := .htmlPage "invalid_link.html" }, db)
    else
      match session_user with
      | some u =>
        match process_invitation db now token_str u with
        | (some tree_id, db') => ({ status := 302, body := .redirectTo ("/tree/" ++ tree_id) }, db')
        | (none, db') => ({ status := 500, body := .htmlPage "invalid_link.html" }, db')
      | none =>
        ({ status := 302, body := .redirectTo "/login" }, db)

/-- Python truthiness of an optional string payload field (`if not x:` — absent and
empty strings are both falsy). -/
def truthyStr : Option String → Bool
  | some s => s != ""
  | none => false

/-- The `get_user_id_by_email` stored procedure: a lookup in the auth users. -/
def findUserByEmail (db : DB) (email : String) : Option UserId :=
  (db.users_by_email.find? (fun p => p.1 == email)).map (·.2)

/-- Request-independent inputs that the handlers obtain from the outside world:
freshly generated identifiers (`uuid.uuid4()`, database-generated tokens), the
database column defaults applied by inserts that do not set every column, and
whether the two fallible remote calls of the batch handler raise. -/
structure Env where
  rpc_fails : Bool
  storage_remove_fails : Bool
  new_token : String
  new_tree_id : TreeId
  fresh_name : String
  fresh_webp_name : String
  default_allow_uploads : Bool
  default_is_demo : Bool
  deriving Repr, DecidableEq

structure SharePayload where
  email : Option String
  role : Option String
  deriving Repr, DecidableEq

structure RevokePayload where
  user_id_to_revoke : Option String
  deriving Repr, DecidableEq

structure ChangePermPayload where
  user_id_to_change : Option String
  new_role : Option String
  deriving Repr, DecidableEq

structure InvitationPayload where
  role : Option String
  limit : Option Nat
  deriving Repr, DecidableEq

structure CreateTreePayload where
  name : Option String
  is_public : Option Bool
  deriving Repr, DecidableEq

/-- `share_tree` (`src/app/api_sharing.py`): owner-only grant of a role to the user
found by email; a user already holding any role (or the owner) is refused with 409. -/
def share_tree (db : DB) (tree_id : TreeId) (user : Option UserId) (payload : SharePayload) :
    Response × DB :=
  if !truthyStr payload.email || !truthyStr payload.role then
    (errResp 400 "Email and role are required.", db)
  else
    let role := payload.role.getD ""
    if role != "editor" && role != "viewer" then
      (errResp 400 "Invalid role. Must be editor or viewer.", db)
    else
      match findTree db tree_id with
      | none => (errResp 404 "Tree not found.", db)
      | some tree_data =>
        if some tree_data.owner_id != user then
          (errResp 403 "Permission denied. Only the owner can share this tree.", db)
        else
          match findUserByEmail db (payload.email.getD "") with
          | none => (errResp 404 "User with this email was not found.", db)
          | some user_to_add_id =>
            let editor_ids := tree_data.editor_ids
            let viewer_ids := tree_data.viewer_ids
            if some user_to_add_id == user || editor_ids.contains user_to_add_id ||
                viewer_ids.contains user_to_add_id then
              (errResp 409 "This user already has access to this tree.", db)
            else if role == "editor" then
              (okResp "User added as editor.",
               updateTree db tree_id (fun t => { t with editor_ids := editor_ids ++ [user_to_add_id] }))
            else if role == "viewer" then
              (okResp "User added as viewer.",
               updateTree db tree_id (fun t => { t with viewer_ids := viewer_ids ++ [user_to_add_id] }))
            else (okResp "User added.", db)

/-- `revoke_tree_access` (`src/app/api_sharing.py`): owner-only removal; Python's
`list.remove` drops the first occurrence, i.e. `List.erase`. -/
def revoke_tree_access (db : DB) (tree_id : TreeId) (user : Option UserId)
    (payload : RevokePayload) : Response × DB :=
  if !truthyStr payload.user_id_to_revoke then
    (errResp 400 "The ID of the user to revoke is required.", db)
  else
    match findTree db tree_id with
    | none => (errResp 404 "Tree not found.", db)
    | some tree_data =>
      if some tree_data.owner_id != user then
        (errResp 403 "Permission denied. Only the owner can revoke access.", db)
      else
        let u := payload.user_id_to_revoke.getD ""
        if some u == user then
          (errResp 400 "The owner cannot revoke their own access.", db)
        else if tree_data.editor_ids.contains u then
          (okResp "User access successfully revoked.",
           updateTree db tree_id (fun t => { t with editor_ids := tree_data.editor_ids.erase u }))
        else if tree_data.viewer_ids.contains u then
          (okResp "User access successfully revoked.",
           updateTree db tree_id (fun t => { t with viewer_ids := tree_data.viewer_ids.erase u }))
        else
          (errResp 404 "The specified user does not have access to this tree.", db)

/-- `change_tree_permission` (`src/app/api_sharing.py`): owner-only role move; the
user is erased from both lists ("to avoid duplicates") and appended to the target
list, and both columns are written in a single update. -/
def change_tree_permission (db : DB) (tree_id : TreeId) (user : Option UserId)
    (payload : ChangePermPayload) : Response × DB :=
  if !truthyStr payload.user_id_to_change || !truthyStr payload.new_role then
    (errResp 400 "User ID and new role are required.", db)
  else
    let new_role := payload.new_role.getD ""
    if new_role != "editor" && new_role != "viewer" then
      (errResp 400 "Invalid role. Must be editor or viewer.", db)
    else
      match findTree db tree_id with
      | none => (errResp 404 "Tree not found.", db)
      | some tree_data =>
        if some tree_data.owner_id != user then
          (errResp 403 "Permission denied. Only the owner can modify permissions.", db)
        else
          let u := payload.user_id_to_change.getD ""
          if some u == user then
            (errResp 400 "The owner cannot change their own role.", db)
          else if !tree_data.editor_ids.contains u && !tree_data.viewer_ids.contains u then
            (errResp 404 "The specified user does not have access to this tree.", db)
          else
            let editor_ids := tree_data.editor_ids.erase u
            let viewer_ids := tree_data.viewer_ids.erase u
            let editor_ids' := if new_role == "editor" then editor_ids ++ [u] else editor_ids
            let viewer_ids' := if new_role == "editor" then viewer_ids else viewer_ids ++ [u]
            (okResp "User role changed.",
             updateTree db tree_id (fun t => { t with editor_ids := editor_ids', viewer_ids := viewer_ids' }))

/-- `create_invitation` (`src/app/api_sharing.py`): owner-only creation of an
invitation link valid for 365 days; the generated token comes back from the insert
(modelled by `env.new_token`). -/
def create_invitation (db : DB) (env : Env) (now : Int) (tree_id : TreeId)
    (user : Option UserId) (payload : InvitationPayload) : Response × DB :=
  match findTree db tree_id with
  | none => (errResp 404 "Tree not found.", db)
  | some tree_data =>
    if some tree_data.owner_id != user then
      (errResp 403 "Only the owner can create invitations.", db)
    else if payload.role != some "editor" && payload.role != some "viewer" then
      (errResp 400 "Invalid role.", db)
    else
      let invitation : Invitation :=
        { token := env.new_token
          tree_id := tree_id
          role := payload.role.getD ""
          expires_at := now + 365 * 86400
          usage_limit := payload.limit
          used_by_users := [] }
      ({ status := 200, body := .jsonLink ("/join/" ++ env.new_token) },
       { db with invitations := db.invitations ++ [invitation] })

/-- `expire_invitation_link` (`src/app/api_sharing.py`): owner-only revocation by
setting `expires_at` to the current instant; 404 when no invitation row matches both
the token and the tree. -/
def expire_invitation_link (db : DB) (now : Int) (tree_id : TreeId) (token : String)
    (user : Option UserId) : Response × DB :=
  match findTree db tree_id with
  | none => (errResp 404 "Tree not found.", db)
  | some tree_data =>
    if some tree_data.owner_id != user then
      (errResp 403 "Only the owner can revoke an invitation link.", db)
    else if !(db.invitations.any (fun i => i.token == token && i.tree_id == tree_id)) then
      (errResp 404 "Invitation link not found or does not belong to this tree.", db)
    else
      (okResp "Invitation link successfully revoked.",
       { db with invitations := db.invitations.map (fun i =>
           if i.token == token && i.tree_id == tree_id then { i with expires_at := now } else i) })

/-- `create_tree` (`src/app/api_trees.py`): inserts a tree owned by the session user;
`allow_file_uploads` and `is_demo` are filled in by database column defaults
(`env.default_allow_uploads`, `env.default_is_demo` — configured outside this
repository). `login_required` guarantees the session user is present. -/
def create_tree (db : DB) (env : Env) (user : Option UserId) (payload : CreateTreePayload) :
    Response × DB :=
  if !truthyStr payload.name then
    (errResp 400 "Tree name is required", db)
  else
    let new_tree : Tree :=
      { id := env.new_tree_id
        name := payload.name.getD ""
        owner_id := user.getD ""
        editor_ids := []
        viewer_ids := []
        is_public := payload.is_public.getD false
        allow_file_uploads := env.default_allow_uploads
        is_demo := env.default_is_demo }
    ({ status := 201, body := .jsonTreeRow new_tree },
     { db with trees := db.trees ++ [new_tree] })

/-- `delete_tree` (`src/app/api_trees.py`): owner-only cascade delete of the tree's
person rows, its storage objects and the tree row itself.  The storage listing and
removal of the tree's folder are modelled as dropping every object path under the
`{tree_id}/` prefix. -/
def delete_tree (db : DB) (tree_id : TreeId) (user : Option UserId) : Response × DB :=
  match findTree db tree_id with
  | none => (errResp 404 "Tree not found", db)
  | some tree_data =>
    if some tree_data.owner_id != user then
      (errResp 403 "Permission denied. Only the owner can delete this tree.", db)
    else
      (okResp "Tree successfully deleted.",
       { db with
           persons := db.persons.filter (fun r => !(r.tree_id == tree_id))
           storage := db.storage.filter (fun p => !(pyStartsWith p (tree_id ++ "/")))
           trees := db.trees.filter (fun t => !(t.id == tree_id)) })

/-- The uploaded multipart file (the handler only reads its name; the image
recompression pipeline is external PIL code and not modelled). -/
structure UploadedFile where
  filename : String
  deriving Repr, DecidableEq

/-- `upload_file` (`src/app/api_files.py`): edit-gated upload under a tree-scoped
path built from a freshly generated random name — the client's filename is never
used for the storage path (images additionally get a second fresh `.webp` name). -/
def upload_file (db : DB) (env : Env) (tree_id : TreeId) (ftype : String)
    (user : Option UserId) (file : Option UploadedFile) : Response × DB :=
  match get_tree_and_user_permissions db tree_id user with
  | none => (errResp 404 "Tree not found", db)
  | some permissions =>
    if !permissions.can_edit then (errResp 403 "Edit permission denied", db)
    else if !permissions.tree.allow_file_uploads then
      (errResp 403 "File uploads are disabled for this tree", db)
    else if ftype != "image" && ftype != "document" then
      (errResp 400 "Invalid upload type", db)
    else
      match file with
      | none => (errResp 400 ("No " ++ ftype ++ " file in request"), db)
      | some f =>
        if f.filename == "" then (errResp 400 "No file selected", db)
        else
          let stored_name := if ftype == "image" then env.fresh_webp_name else env.fresh_name
          let file_path := tree_id ++ "/" ++ ftype ++ "s/" ++ stored_name
          ({ status := 200,
             body := .jsonUrl f.filename ("/api/tree/" ++ tree_id ++ "/file/" ++ file_path) },
           { db with storage := db.storage ++ [file_path] })

/-- `SIGNED_URL_EXPIRATION_SECONDS` (`src/app/__init__.py`). -/
def SIGNED_URL_EXPIRATION_SECONDS : Nat := 3600 * 12

/-- The storage backend's signed-URL issuance (`create_signed_url`), external to this
repository: modelled as a total deterministic function of the object path and the
expiry window. -/
def create_signed_url (file_path : String) (expires_in : Nat) : String :=
  "https://storage.example/object/sign/tree_files/" ++ file_path ++ "?expires_in="
    ++ toString expires_in

/-- `serve_protected_file` (`src/app/api_files.py`): view-permission check, then the
tree-scoping prefix check, then a 302 redirect to a time-limited signed URL.  The
handler performs no writes, so it is embedded as a read-only function. -/
def serve_protected_file (db : DB) (tree_id : TreeId) (file_path : String)
    (user : Option UserId) : Response :=
  match get_tree_and_user_permissions db tree_id user with
  | none => errResp 404 "Tree not found"
  | some permissions =>
    if !permissions.can_view then
      errResp 403 "Access denied. You do not have permission to view this file."
    else
      let expected_prefix := tree_id ++ "/"
      if !pyStartsWith file_path expected_prefix then
        errResp 400 "Invalid file path for this tree."
      else
        { status := 302,
          body := .redirectTo (create_signed_url file_path SIGNED_URL_EXPIRATION_SECONDS) }

/-- The JSON payload of `POST /api/tree/{id}/persons/batch`
(`payload.get("add"/"modify"/"delete", [])`). -/
structure BatchPayload where
  add : List PersonData
  modify : List PersonData
  delete : List Int
  deriving Repr, DecidableEq

/-- URL allow-list of the batch validation: `http:`, `https:` or a relative `/`. -/
def urlValidScheme (u : String) : Bool :=
  pyStartsWith u "http:" || pyStartsWith u "https:" || pyStartsWith u "/"

/-- URL deny-list of the batch validation. -/
def urlDangerous (u : String) : Bool :=
  pyStartsWith u "javascript:" || pyStartsWith u "data:" || pyStartsWith u "vbscript:"

/-- The check applied to one `.strip().lower()`-normalised URL string: empty strings
pass, otherwise the scheme must be allow-listed and not deny-listed. -/
def urlViolates (s : String) : Bool :=
  let u := pyToLower (pyTrim s)
  u != "" && (!urlValidScheme u || urlDangerous u)

/-- The photo part of the per-person validation — applied only when the `photo` field
`isinstance(..., str)`; an object-shaped photo is not inspected. -/
def photoViolation (p : PersonData) : Bool :=
  match p.photo with
  | some (.str s) => urlViolates s
  | _ => false

/-- The documents part of the per-person validation — applied to every document
object carrying a string `url`. -/
def docViolation (p : PersonData) : Bool :=
  match p.documents with
  | some docs => docs.any (fun d =>
      match d.url with
      | some s => urlViolates s
      | none => false)
  | none => false

/-- Validation of one person record: the photo check runs before the documents
check, each with its own 400 error payload. -/
def validatePerson (p : PersonData) : Option Response :=
  if photoViolation p then some (errResp 400 "Security check failed: Illegal URL scheme")
  else if docViolation p then some (errResp 400 "Invalid URL in person.documents.url")
  else none

/-- The whole validation loop: `add` list first, then `modify`, returning the first
failure. -/
def validateBatch (payload : BatchPayload) : Option Response :=
  (payload.add ++ payload.modify).findSome? validatePerson

def apiFilePrefix (tree_id : TreeId) : String := "/api/tree/" ++ tree_id ++ "/file/"

/-- `old_data.get("photo", "")`: a missing photo key defaults to the empty string. -/
def photoPy (o : Option PhotoField) : PhotoField := o.getD (.str "")

/-- Python truthiness of the photo value: an empty string is falsy; `.obj u` models
the dict `{"url": u}` when `u = some _` (truthy) and the empty dict `{}` when
`u = none` (falsy). -/
def photoTruthy : PhotoField → Bool
  | .str s => s != ""
  | .obj u => u.isSome

/-- The photo branch of the modify-diff: when the old photo is truthy and differs
from the new one, `old_photo_url.startswith(api_file_prefix)` is evaluated — which
raises `AttributeError` when the old photo is an object rather than a string
(modelled as `Except.error`, caught by the handler's generic `except`). -/
def modifyPhotoDelete (pfx : String) (old_data new_data : PersonData) :
    Except Unit (List String) :=
  let old_photo := photoPy old_data.photo
  let new_photo := photoPy new_data.photo
  if photoTruthy old_photo && old_photo != new_photo then
    match old_photo with
    | .str s => if pyStartsWith s pfx then .ok [pyReplace s pfx ""] else .ok []
    | .obj _ => .error ()
  else .ok []

/-- The documents branch of the modify-diff: the set of old under-prefix URLs minus
the set of new URLs (set membership; Python's arbitrary set iteration order is
immaterial because the result is only ever used as a set). -/
def modifyDocsDelete (pfx : String) (old_data new_data : PersonData) : List String :=
  let old_urls := ((old_data.documents.getD []).filterMap (fun d => d.url)).filter
    (fun u => pyStartsWith u pfx)
  let new_urls := (new_data.documents.getD []).filterMap (fun d => d.url)
  (old_urls.dedup.filter (fun u => !new_urls.contains u)).map (fun u => pyReplace u pfx "")

/-- File-deletion candidates contributed by the `modify` list: the current rows of
the modified persons are fetched and diffed against the incoming data. -/
def filesToDeleteModify (db : DB) (tree_id : TreeId) (modify : List PersonData) :
    Except Unit (List String) :=
  if modify.isEmpty then .ok []
  else
    let pfx := apiFilePrefix tree_id
    let modified_ids := modify.map (fun p => p.id)
    let current := db.persons.filter (fun r => r.tree_id == tree_id && modified_ids.contains r.id)
    modify.foldlM (fun acc new_data =>
      match current.find? (fun r => r.id == new_data.id) with
      | none => .ok acc
      | some row => do
        let ph ← modifyPhotoDelete pfx row.data new_data
        .ok (acc ++ ph ++ modifyDocsDelete pfx row.data new_data)) []

/-- `data.get("photo", {}).get("url", "") if isinstance(data.get("photo"), dict)
else data.get("photo", "")`. -/
def deletePhotoUrl (d : PersonData) : String :=
  match d.photo with
  | some (.obj u) => u.getD ""
  | some (.str s) => s
  | none => ""

/-- File-deletion candidates contributed by the `delete` list: every under-prefix
photo and document URL of the rows being deleted. -/
def filesToDeleteDelete (db : DB) (tree_id : TreeId) (delete : List Int) : List String :=
  if delete.isEmpty then []
  else
    let pfx := apiFilePrefix tree_id
    let rows := db.persons.filter (fun r => r.tree_id == tree_id && delete.contains r.id)
    rows.foldl (fun acc r =>
      let photo_url := deletePhotoUrl r.data
      let acc1 := if photo_url != "" && pyStartsWith photo_url pfx then
        acc ++ [pyReplace photo_url pfx ""] else acc
      match r.data.documents with
      | none => acc1
      | some docs => acc1 ++ docs.filterMap (fun d => d.url.bind (fun u =>
          if u != "" && pyStartsWith u pfx then some (pyReplace u pfx "") else none))) []

/-- All file-deletion candidates, in source order (modify part, then delete part). -/
def filesToDelete (db : DB) (tree_id : TreeId) (payload : BatchPayload) :
    Except Unit (List String) := do
  let m ← filesToDeleteModify db tree_id payload.modify
  .ok (m ++ filesToDeleteDelete db tree_id payload.delete)

/-- Modelled from the spec: the server-side Postgres function
`batch_update_persons_atomic` is not part of this repository's source; per the spec
it applies the add, modify and delete lists for one tree as a single transaction
(all-or-nothing), which this one-step state transformation captures. -/
def applyBatch (db : DB) (tree_id : TreeId) (p : BatchPayload) : DB :=
  let kept := db.persons.filter (fun r => !(r.tree_id == tree_id && p.delete.contains r.id))
  let modified := kept.map (fun r =>
    if r.tree_id == tree_id then
      match p.modify.find? (fun d => d.id == r.id) with
      | some d => { r with id := d.id, data := d }
      | none => r
    else r)
  let added := p.add.map (fun d => { tree_id := tree_id, id := d.id, data := d : PersonRow })
  { db with persons := modified ++ added }

/-- `batch_update_persons` (`src/app/api_data.py`): permission gate, URL validation,
orphaned-file diff, the atomic remote mutation, then storage cleanup.  Both the
remote transaction and the storage removal sit inside one `try`, whose `except`
returns a 500; `env.rpc_fails` / `env.storage_remove_fails` say whether those two
remote calls raise. -/
def batch_update_persons (db : DB) (env : Env) (tree_id : TreeId) (user : Option UserId)
    (payload : BatchPayload) : Response × DB :=
  match get_tree_and_user_permissions db tree_id user with
  | none => (errResp 404 "Tree not found", db)
  | some permissions =>
    if !permissions.can_edit then (errResp 403 "Edit permission denied", db)
    else
      match validateBatch payload with
      | some r => (r, db)
      | none =>
        match filesToDelete db tree_id payload with
        | .error _ => (errResp 500 "Error during batch processing: attribute error", db)
        | .ok files_to_delete_ =>
          if env.rpc_fails then (errResp 500 "Error during batch processing: rpc error", db)
          else
            let db1 := applyBatch db tree_id payload
            if !files_to_delete_.isEmpty then
              let unique_files := files_to_delete_.dedup
              if !unique_files.isEmpty then
                if env.storage_remove_fails then
                  (errResp 500 "Error during batch processing: storage error", db1)
                else
                  (okResp "Batch update successful.",
                   { db1 with storage := db1.storage.filter (fun f => !unique_files.contains f) })
              else (okResp "Batch update successful.", db1)
            else (okResp "Batch update successful.", db1)

/-- The process-local `new_ids_dict` of `src/app/api_data.py`, an in-memory mapping
from tree identifier to the last identifier handed out by this process. -/
abbrev IdCache := List (TreeId × Int)

def cacheLookup (cache : IdCache) (tree_id : TreeId) : Option Int :=
  (cache.find? (fun p => p.1 == tree_id)).map (·.2)

def cacheSet (cache : IdCache) (tree_id : TreeId) (v : Int) : IdCache :=
  if cache.any (fun p => p.1 == tree_id) then
    cache.map (fun p => if p.1 == tree_id then (p.1, v) else p)
  else cache ++ [(tree_id, v)]

/-- The `select("id").order("id", desc=True).limit(1)` query: the greatest person
identifier of the tree, `none` when the tree has no person rows. -/
def maxPersonId (db : DB) (tree_id : TreeId) : Option Int :=
  ((db.persons.filter (fun r => r.tree_id == tree_id)).map (fun r => r.id)).max?

structure NewIdResult where
  resp : Response
  cache : IdCache
  queried_persons : Bool
  deriving Repr, DecidableEq

/-- `get_new_id` (`src/app/api_data.py`): edit-gated identifier allocation.
`if new_ids_dict.get(tree_id):` is a Python truthiness test, so both an absent cache
entry and a cached value of 0 fall through to the remote `persons`-table query
(`queried_persons` records whether that round-trip happened). -/
def get_new_id (cache : IdCache) (db : DB) (tree_id : TreeId) (user : Option UserId) :
    NewIdResult :=
  match get_tree_and_user_permissions db tree_id user with
  | none => { resp := errResp 404 "Tree not found", cache := cache, queried_persons := false }
  | some permissions =>
    if !permissions.can_edit then
      { resp := errResp 403 "Edit permission denied", cache := cache, queried_persons := false }
    else
      let fresh : NewIdResult :=
        let new_id := match maxPersonId db tree_id with
          | some m => m + 1
          | none => 1
        { resp := { status := 200, body := .jsonId new_id }
          cache := cacheSet cache tree_id new_id
          queried_persons := true }
      match cacheLookup cache tree_id with
      | some v =>
        if v != 0 then
          { resp := { status := 200, body := .jsonId (v + 1) }
            cache := cacheSet cache tree_id (v + 1)
            queried_persons := false }
        else fresh
      | none => fresh

/-- The request-level context the cross-cutting decorators look at: the
session-bound user identifier and whether `csrf.protect()` (flask-wtf, external to
this repository) accepts the request's cross-site-request-forgery token.  An
explicit `csrf.protect()` call validates the token unconditionally — the
`WTF_CSRF_ENABLED = False` setting in `create_app` only disables the library's
automatic before-request hook, not explicit calls — so token validity is carried as
a boolean on the request. -/
structure ApiRequest where
  session_user : Option UserId
  csrf_valid : Bool
  deriving Repr, DecidableEq

abbrev Handler := ApiRequest → DB → Response × DB

/-- `login_required` (`src/app/utils.py`), on an `/api/` path: a missing session user
yields a 401 JSON error without running the wrapped handler. -/
def login_required (f : Handler) : Handler := fun req db =>
  match req.session_user with
  | none => (errResp 401 "Authentication required", db)
  | some _ => f req db

/-- `csrf_protect_api` (`src/app/utils.py`): `csrf.protect()` raising (missing or
incorrect token) is mapped to a 403 JSON error without running the wrapped
handler. -/
def csrf_protect_api (f : Handler) : Handler := fun req db =>
  if req.csrf_valid then f req db
  else (errResp 403 "CSRF token missing or incorrect", db)

/-- `no_cache` (`src/app/utils.py`) only sets response caching headers, which the
model does not carry. -/
def no_cache (f : Handler) : Handler := f

/-- `POST /api/trees` with its decorator stack `@login_required @csrf_protect_api`. -/
def create_tree_endpoint (env : Env) (payload : CreateTreePayload) : Handler :=
  login_required (csrf_protect_api (fun req db => create_tree db env req.session_user payload))

/-- `DELETE /api/tree/<id>` with `@login_required @csrf_protect_api`. -/
def delete_tree_endpoint (tree_id : TreeId) : Handler :=
  login_required (csrf_protect_api (fun req db => delete_tree db tree_id req.session_user))

/-- `POST /api/tree/<id>/persons/batch` with `@login_required @no_cache
@csrf_protect_api`. -/
def batch_update_persons_endpoint (env : Env) (tree_id : TreeId) (payload : BatchPayload) :
    Handler :=
  login_required (no_cache (csrf_protect_api (fun req db =>
    batch_update_persons db env tree_id req.session_user payload)))

/-- `POST /api/tree/<id>/upload/<type>` with `@login_required @no_cache
@csrf_protect_api`. -/
def upload_file_endpoint (env : Env) (tree_id : TreeId) (ftype : String)
    (file : Option UploadedFile) : Handler :=
  login_required (no_cache (csrf_protect_api (fun req db =>
    upload_file db env tree_id ftype req.session_user file)))

/-- `POST /api/tree/<id>/share` with `@login_required @csrf_protect_api`. -/
def share_tree_endpoint (tree_id : TreeId) (payload : SharePayload) : Handler :=
  login_required (csrf_protect_api (fun req db =>
    share_tree db tree_id req.session_user payload))

/-- `POST /api/tree/<id>/revoke` with `@login_required @csrf_protect_api`. -/
def revoke_tree_access_endpoint (tree_id : TreeId) (payload : RevokePayload) : Handler :=
  login_required (csrf_protect_api (fun req db =>
    revoke_tree_access db tree_id req.session_user payload))

/-- `POST /api/tree/<id>/permission` with `@login_required @csrf_protect_api`. -/
def change_tree_permission_endpoint (tree_id : TreeId) (payload : ChangePermPayload) :
    Handler :=
  login_required (csrf_protect_api (fun req db =>
    change_tree_permission db tree_id req.session_user payload))

/-- `POST /api/tree/<id>/invitation` with `@login_required @csrf_protect_api`. -/
def create_invitation_endpoint (env : Env) (now : Int) (tree_id : TreeId)
    (payload : InvitationPayload) : Handler :=
  login_required (csrf_protect_api (fun req db =>
    create_invitation db env now tree_id req.session_user payload))

/-- `DELETE /api/tree/<id>/invitation/<token>` with `@login_required
@csrf_protect_api`. -/
def expire_invitation_link_endpoint (now : Int) (tree_id : TreeId) (token : String) :
    Handler :=
  login_required (csrf_protect_api (fun req db =>
    expire_invitation_link db now tree_id token req.session_user))

/-- A sample tree: owner `OWN`, one editor `ED`, one viewer `VW`, private. -/
def treeX : Tree :=
  { id := "T1", name := "Smith", owner_id := "OWN", editor_ids := ["ED"],
    viewer_ids := ["VW"], is_public := false, allow_file_uploads := true, is_demo := false }

/-- A sample invitation on `treeX` with the given usage limit and usage record. -/
def invX (limit : Option Nat) (used : List UserId) : Invitation :=
  { token := "tok", tree_id := "T1", role := "viewer", expires_at := 1000,
    usage_limit := limit, used_by_users := used }

/-- A sample database holding `treeX` and one invitation. -/
def dbX (limit : Option Nat) (used : List UserId) : DB :=
  { trees := [treeX], invitations := [invX limit used], persons := [], storage := [],
    users_by_email := [("b@example.com", "B")] }

/-- A sample environment where no remote call fails. -/
def envX : Env :=
  { rpc_fails := false, storage_remove_fails := false, new_token := "tok2",
    new_tree_id := "T2", fresh_name := "f1.bin", fresh_webp_name := "f2.webp",
    default_allow_uploads := true, default_is_demo := false }

/-- The view permission carried by an optional permission record. -/
def canViewOpt : Option Perms → Bool
  | some p => p.can_view
  | none => false

/-- The role invariant of a tree record: duplicate-free editor and viewer sets, no
identifier in both, and the owner in neither. -/
def TreeWf (t : Tree) : Prop :=
  t.editor_ids.Nodup ∧ t.viewer_ids.Nodup ∧
  (∀ u, u ∈ t.editor_ids → u ∉ t.viewer_ids) ∧
  t.owner_id ∉ t.editor_ids ∧ t.owner_id ∉ t.viewer_ids

instance (t : Tree) : Decidable (TreeWf t) := by
  unfold TreeWf
  infer_instance

/-- A database whose only person row for `treeX` has identifier `-1` (person
identifiers come from client payloads and are not validated, so nonpositive values
are reachable). -/
def db9 : DB :=
  { trees := [treeX], invitations := [],
    persons := [{ tree_id := "T1", id := -1,
                  data := { id := -1, photo := none, documents := none } }],
    storage := [], users_by_email := [] }

/-- A database with one person row on `treeX` whose photo references a stored file
under the tree-scoped prefix. -/
def db8 : DB :=
  { trees := [treeX], invitations := [],
    persons := [{ tree_id := "T1", id := 1,
                  data := { id := 1,
                            photo := some (.str "/api/tree/T1/file/T1/images/a.webp"),
                            documents := none } }],
    storage := ["T1/images/a.webp"], users_by_email := [] }

/-- An environment where the storage removal raises. -/
def env8 : Env := { envX with storage_remove_fails := true }

/-- Fold a sequence of join attempts (each an instant and a user) through
`process_invitation` for one token. -/
def runInvitations (token : String) : DB → List (Int × UserId) → DB
  | db, [] => db
  | db, a :: rest => runInvitations token (process_invitation db a.1 token a.2).2 rest

/-- The users granted access (a tree identifier handed back) along a sequence of
join attempts, in order and with repetitions. -/
def grantedUsers (token : String) : DB → List (Int × UserId) → List UserId
  | _, [] => []
  | db, a :: rest =>
    let r := process_invitation db a.1 token a.2
    (if r.1.isSome then [a.2] else []) ++ grantedUsers token r.2 rest

/-! ## Theorems -/

/-- C1: for every tree record and every optional acting user the permission resolver
computes `can_view = is_public OR is_owner OR is_editor OR is_viewer` and
`can_edit = is_owner OR is_editor`; for anonymous callers `can_edit` is false and
`can_view` equals the public flag; an absent tree record yields `none` (the resolver
is a read-only function of the database state, mirroring that the source only issues
a `select`). -/
theorem permission_resolver_correct (db : DB) (tree_id : TreeId) (user_id : Option UserId) :
    get_tree_and_user_permissions db tree_id user_id =
      (findTree db tree_id).map (fun t =>
        { can_edit := isOwnerOf t user_id || isEditorOf t user_id
          can_view := t.is_public || isOwnerOf t user_id || isEditorOf t user_id ||
            isViewerOf t user_id
          tree := t }) ∧
    get_tree_and_user_permissions db tree_id none =
      (findTree db tree_id).map (fun t =>
        { can_edit := false, can_view := t.is_public, tree := t }) := by
  constructor
  · unfold get_tree_and_user_permissions
    cases h : findTree db tree_id with
    | none => simp
    | some t =>
      cases user_id with
      | none => simp [isOwnerOf, isEditorOf, isViewerOf]
      | some u => simp [isOwnerOf, isEditorOf, isViewerOf]
  · unfold get_tree_and_user_permissions
    cases h : findTree db tree_id with
    | none => simp
    | some t => simp

/-- C2: every mutating endpoint (tree creation and deletion, batch person update,
file upload, share/revoke/permission edits, invitation creation and revocation) runs
behind `login_required` and `csrf_protect_api`; a request whose
cross-site-request-forgery token does not validate is rejected — 403 when a session
user is present, 401 (the login gate, which runs first) when not — and the database
is untouched in either case. -/
theorem mutating_endpoints_reject_missing_csrf (su : Option UserId) (db : DB) (env : Env)
    (now : Int) (tree_id : TreeId) (token : String) (p1 : CreateTreePayload)
    (p2 : BatchPayload) (ftype : String) (file : Option UploadedFile) (p3 : SharePayload)
    (p4 : RevokePayload) (p5 : ChangePermPayload) (p6 : InvitationPayload) :
    let req : ApiRequest := { session_user := su, csrf_valid := false }
    let expected : Nat := if su.isSome then 403 else 401
    ((create_tree_endpoint env p1 req db).1.status = expected ∧
      (create_tree_endpoint env p1 req db).2 = db) ∧
    ((delete_tree_endpoint tree_id req db).1.status = expected ∧
      (delete_tree_endpoint tree_id req db).2 = db) ∧
    ((batch_update_persons_endpoint env tree_id p2 req db).1.status = expected ∧
      (batch_update_persons_endpoint env tree_id p2 req db).2 = db) ∧
    ((upload_file_endpoint env tree_id ftype file req db).1.status = expected ∧
      (upload_file_endpoint env tree_id ftype file req db).2 = db) ∧
    ((share_tree_endpoint tree_id p3 req db).1.status = expected ∧
      (share_tree_endpoint tree_id p3 req db).2 = db) ∧
    ((revoke_tree_access_endpoint tree_id p4 req db).1.status = expected ∧
      (revoke_tree_access_endpoint tree_id p4 req db).2 = db) ∧
    ((change_tree_permission_endpoint tree_id p5 req db).1.status = expected ∧
      (change_tree_permission_endpoint tree_id p5 req db).2 = db) ∧
    ((create_invitation_endpoint env now tree_id p6 req db).1.status = expected ∧
      (create_invitation_endpoint env now tree_id p6 req db).2 = db) ∧
    ((expire_invitation_link_endpoint now tree_id token req db).1.status = expected ∧
      (expire_invitation_link_endpoint now tree_id token req db).2 = db) := by
  cases su <;>
    simp [create_tree_endpoint, delete_tree_endpoint, batch_update_persons_endpoint,
      upload_file_endpoint, share_tree_endpoint, revoke_tree_access_endpoint,
      change_tree_permission_endpoint, create_invitation_endpoint,
      expire_invitation_link_endpoint, login_required, csrf_protect_api, no_cache, errResp]

/-- C7: the file-serving endpoint never streams file bytes; its status is exactly one
of 302/400/403/404, it redirects (302) to the time-limited signed URL exactly when
the requester can view the tree and the requested path is scoped under
`{tree_id}/`, and otherwise answers 404 (tree absent), 403 (no view permission) or
400 (path not scoped under the tree). -/
theorem file_serving_redirects_only (db : DB) (tree_id : TreeId) (file_path : String)
    (user : Option UserId) :
    let r := serve_protected_file db tree_id file_path user
    let pm := get_tree_and_user_permissions db tree_id user
    let viewOk := canViewOpt pm
    let prefixOk := pyStartsWith file_path (tree_id ++ "/")
    r.body.isFileBytes = false ∧
    (r.status = 302 ∨ r.status = 400 ∨ r.status = 403 ∨ r.status = 404) ∧
    (decide (r.status = 404) = pm.isNone) ∧
    (decide (r.status = 403) = (pm.isSome && !viewOk)) ∧
    (decide (r.status = 400) = (viewOk && !prefixOk)) ∧
    (decide (r.status = 302) = (viewOk && prefixOk)) ∧
    (decide (r.body = .redirectTo (create_signed_url file_path SIGNED_URL_EXPIRATION_SECONDS))
      = (viewOk && prefixOk)) := by
  cases hpm : get_tree_and_user_permissions db tree_id user with
  | none =>
    simp [serve_protected_file, hpm, canViewOpt, errResp, Body.isFileBytes]
  | some p =>
    by_cases hv : p.can_view = true
    · by_cases hp : pyStartsWith file_path (tree_id ++ "/") = true
      · simp [serve_protected_file, hpm, canViewOpt, errResp, Body.isFileBytes, hv, hp]
      · simp [serve_protected_file, hpm, canViewOpt, errResp, Body.isFileBytes, hv,
          Bool.of_not_eq_true hp]
    · simp [serve_protected_file, hpm, canViewOpt, errResp, Body.isFileBytes,
        Bool.of_not_eq_true hv]

/-- C4 counterexample: an unexpired invitation on tree `T1` with `usage_limit = 1`
whose usage record is exactly `["A"]`.  The claim says a repeat consumption by `A`
returns the tree identifier `T1`; the code checks the usage limit *before* the
already-used short-circuit, so the repeat consumption returns `none` (the database
is not mutated, but no tree identifier is handed back). -/
theorem invitation_repeat_consumption_cx :
    (findInvitation (dbX (some 1) ["A"]) "tok").map Invitation.used_by_users = some ["A"] ∧
    (0 : Int) ≤ (invX (some 1) ["A"]).expires_at ∧
    (process_invitation (dbX (some 1) ["A"]) 0 "tok" "A").1 = none ∧
    (process_invitation (dbX (some 1) ["A"]) 0 "tok" "A").2 = dbX (some 1) ["A"] := by
  decide

/-- C4 (amended): for every invitation that is not expired and whose usage record
has not reached its usage limit, a repeat consumption by a user already present in
the usage record returns the invitation's tree identifier and leaves the database
(usage record and editor/viewer membership lists included) completely unchanged. -/
theorem invitation_repeat_consumption_idempotent (db : DB) (now : Int) (token : String)
    (u : UserId) (i : Invitation)
    (hf : findInvitation db token = some i)
    (hexp : ¬ i.expires_at < now)
    (hfull : usageExhausted i.usage_limit i.used_by_users = false)
    (hu : u ∈ i.used_by_users) :
    process_invitation db now token u = (some i.tree_id, db) := by
  unfold process_invitation
  rw [hf]
  simp only [if_neg hexp, hfull, Bool.false_eq_true, if_false]
  have hc : i.used_by_users.contains u = true := List.elem_iff.mpr hu
  simp [hc]
  intro hnot
  exact absurd hu hnot

/-- Witness for `invitation_repeat_consumption_idempotent`: user `A` re-consuming an
unexhausted invitation (`usage_limit = 2`, usage record `["A"]`) gets tree `T1` back
and the state is unchanged. -/
theorem invitation_repeat_consumption_idempotent_witness :
    process_invitation (dbX (some 2) ["A"]) 0 "tok" "A" = (some "T1", dbX (some 2) ["A"]) :=
  invitation_repeat_consumption_idempotent (dbX (some 2) ["A"]) 0 "tok" "A"
    (invX (some 2) ["A"]) (by decide) (by decide) (by decide) (by decide)

/-- Updating the invitations matching a token with a token-preserving function
commutes with looking the token up. -/
theorem findInvitation_updateInvitation (db : DB) (token : String)
    (f : Invitation → Invitation) (htok : ∀ j, (f j).token = j.token) (i : Invitation)
    (hf : findInvitation db token = some i) :
    findInvitation (updateInvitation db token f) token = some (f i) := by
  unfold findInvitation updateInvitation
  unfold findInvitation at hf
  have hit : (i.token == token) = true := by simpa using List.find?_some hf
  rw [List.find?_map]
  have hcomp :
      ((fun j : Invitation => j.token == token) ∘
        (fun j => if j.token == token then f j else j)) =
      (fun j : Invitation => j.token == token) := by
    funext j
    by_cases hj : j.token = token
    · simp [hj, htok]
    · simp [hj]
  rw [hcomp, hf]
  have hieq : i.token = token := by simpa using hit
  simp [hieq]

/-- `updateInvitation` touches only the invitations table. -/
theorem updateInvitation_frame (db : DB) (token : String) (f : Invitation → Invitation) :
    (updateInvitation db token f).trees = db.trees ∧
    (updateInvitation db token f).persons = db.persons ∧
    (updateInvitation db token f).storage = db.storage ∧
    (updateInvitation db token f).users_by_email = db.users_by_email := by
  unfold updateInvitation
  exact ⟨rfl, rfl, rfl, rfl⟩

/-- C10: when a user who is already the tree owner, an editor or a viewer consumes an
unexpired, non-exhausted invitation they have not used before, the whole trees table
(in particular the editor and viewer lists) is left unchanged, yet the user is
appended to the invitation usage record — its length grows by one, consuming a slot
of the usage limit — and the consumption succeeds, returning the tree identifier. -/
theorem member_join_consumes_slot (db : DB) (now : Int) (token : String) (u : UserId)
    (i : Invitation) (tr : Tree)
    (hf : findInvitation db token = some i)
    (hexp : ¬ i.expires_at < now)
    (hfull : usageExhausted i.usage_limit i.used_by_users = false)
    (hnew : u ∉ i.used_by_users)
    (ht : findTree db i.tree_id = some tr)
    (hmem : u = tr.owner_id ∨ u ∈ tr.editor_ids ∨ u ∈ tr.viewer_ids) :
    (process_invitation db now token u).1 = some i.tree_id ∧
    (process_invitation db now token u).2.trees = db.trees ∧
    (process_invitation db now token u).2.persons = db.persons ∧
    (process_invitation db now token u).2.storage = db.storage ∧
    (process_invitation db now token u).2.users_by_email = db.users_by_email ∧
    findInvitation (process_invitation db now token u).2 token =
      some { i with used_by_users := i.used_by_users ++ [u] } := by
  have hc : i.used_by_users.contains u = false := by
    rw [← Bool.not_eq_true]
    simp only [List.elem_iff]
    exact hnew
  have hcond : ¬((¬u = tr.owner_id ∧ u ∉ tr.editor_ids) ∧ u ∉ tr.viewer_ids) := by
    tauto
  have hstep : process_invitation db now token u =
      (some i.tree_id,
        updateInvitation db token
          (fun j => { j with used_by_users := i.used_by_users ++ [u] })) := by
    unfold process_invitation
    rw [hf]
    simp only [if_neg hexp, hfull, Bool.false_eq_true, if_false, hc]
    rw [ht]
    simp [hcond]
  rw [hstep]
  refine ⟨rfl, (updateInvitation_frame db token _).1, (updateInvitation_frame db token _).2.1,
    (updateInvitation_frame db token _).2.2.1, (updateInvitation_frame db token _).2.2.2, ?_⟩
  exact findInvitation_updateInvitation db token
    (fun j => { j with used_by_users := i.used_by_users ++ [u] }) (fun j => rfl) i hf

/-- Witness for `member_join_consumes_slot`: the viewer `VW` of `treeX` consumes a
fresh two-use invitation; the trees table is unchanged and the usage record becomes
`["VW"]`. -/
theorem member_join_consumes_slot_witness :
    (process_invitation (dbX (some 2) []) 0 "tok" "VW").1 = some "T1" ∧
    (process_invitation (dbX (some 2) []) 0 "tok" "VW").2.trees = (dbX (some 2) []).trees ∧
    findInvitation (process_invitation (dbX (some 2) []) 0 "tok" "VW").2 "tok" =
      some (invX (some 2) ["VW"]) := by
  have h := member_join_consumes_slot (dbX (some 2) []) 0 "tok" "VW"
    (invX (some 2) []) treeX (by decide) (by decide) (by decide) (by decide) (by decide)
    (by decide)
  exact ⟨h.1, h.2.1, h.2.2.2.2.2⟩

/-- A found tree is a member of the table and carries the looked-up identifier. -/
theorem findTree_mem (db : DB) (tree_id : TreeId) (t : Tree)
    (h : findTree db tree_id = some t) : t ∈ db.trees ∧ t.id = tree_id :=
  ⟨List.mem_of_find?_eq_some h, by simpa using List.find?_some h⟩

/-- With duplicate-free tree identifiers, an update through `updateTree` rewrites
exactly the found row; table-wide well-formedness is preserved whenever the rewritten
row stays well-formed. -/
theorem updateTree_wf (db : DB) (tree_id : TreeId) (f : Tree → Tree) (t0 : Tree)
    (hids : (db.trees.map Tree.id).Nodup)
    (hwf : ∀ t ∈ db.trees, TreeWf t)
    (hfind : findTree db tree_id = some t0)
    (hf0 : TreeWf (f t0)) :
    ∀ t1 ∈ (updateTree db tree_id f).trees, TreeWf t1 := by
  intro t1 ht1
  unfold updateTree at ht1
  simp only [List.mem_map] at ht1
  obtain ⟨t, htmem, heq⟩ := ht1
  obtain ⟨h0mem, h0id⟩ := findTree_mem db tree_id t0 hfind
  by_cases hid : t.id = tree_id
  · have hteq : t = t0 := List.inj_on_of_nodup_map hids htmem h0mem (by rw [hid, h0id])
    subst hteq
    simp only [hid, beq_self_eq_true, if_true] at heq
    · rw [← heq]
      simpa [hid] using hf0
  · simp only [beq_iff_eq, hid, if_false] at heq
    rw [← heq]
    exact hwf t htmem

/-- Appending a genuinely new non-owner user to the editor set preserves the
invariant. -/
theorem treeWf_append_editor (t : Tree) (u : UserId) (hwf : TreeWf t)
    (h1 : u ∉ t.editor_ids) (h2 : u ∉ t.viewer_ids) (h3 : u ≠ t.owner_id) :
    TreeWf { t with editor_ids := t.editor_ids ++ [u] } := by
  obtain ⟨he, hv, hd, ho1, ho2⟩ := hwf
  refine ⟨?_, hv, ?_, ?_, ho2⟩
  · simp [List.nodup_append, he, h1]
  · intro x hx
    rcases List.mem_append.mp hx with hx | hx
    · exact hd x hx
    · simp at hx
      subst hx
      exact h2
  · simp only [List.mem_append, List.mem_singleton]
    push_neg
    exact ⟨ho1, fun h => h3 h.symm⟩

/-- Appending a genuinely new non-owner user to the viewer set preserves the
invariant. -/
theorem treeWf_append_viewer (t : Tree) (u : UserId) (hwf : TreeWf t)
    (h1 : u ∉ t.editor_ids) (h2 : u ∉ t.viewer_ids) (h3 : u ≠ t.owner_id) :
    TreeWf { t with viewer_ids := t.viewer_ids ++ [u] } := by
  obtain ⟨he, hv, hd, ho1, ho2⟩ := hwf
  refine ⟨he, ?_, ?_, ho1, ?_⟩
  · simp [List.nodup_append, hv, h2]
  · intro x hx
    simp only [List.mem_append, List.mem_singleton]
    push_neg
    exact ⟨hd x hx, fun hxu => h1 (hxu ▸ hx)⟩
  · simp only [List.mem_append, List.mem_singleton]
    push_neg
    exact ⟨ho2, fun h => h3 h.symm⟩

/-- Erasing a user from the editor set preserves the invariant. -/
theorem treeWf_erase_editor (t : Tree) (u : UserId) (hwf : TreeWf t) :
    TreeWf { t with editor_ids := t.editor_ids.erase u } := by
  obtain ⟨he, hv, hd, ho1, ho2⟩ := hwf
  exact ⟨he.erase u, hv, fun x hx => hd x (List.erase_subset _ _ hx),
    fun h => ho1 (List.erase_subset _ _ h), ho2⟩

/-- Erasing a user from the viewer set preserves the invariant. -/
theorem treeWf_erase_viewer (t : Tree) (u : UserId) (hwf : TreeWf t) :
    TreeWf { t with viewer_ids := t.viewer_ids.erase u } := by
  obtain ⟨he, hv, hd, ho1, ho2⟩ := hwf
  exact ⟨he, hv.erase u, fun x hx h => hd x hx (List.erase_subset _ _ h), ho1,
    fun h => ho2 (List.erase_subset _ _ h)⟩

/-- Moving a non-owner user into the editor set (erasing it from both sets first, as
`change_tree_permission` does) preserves the invariant. -/
theorem treeWf_move_editor (t : Tree) (u : UserId) (hwf : TreeWf t) (h3 : u ≠ t.owner_id) :
    TreeWf { t with editor_ids := t.editor_ids.erase u ++ [u],
                    viewer_ids := t.viewer_ids.erase u } := by
  obtain ⟨he, hv, hd, ho1, ho2⟩ := hwf
  refine ⟨?_, hv.erase u, ?_, ?_, fun h => ho2 (List.erase_subset _ _ h)⟩
  · have : u ∉ t.editor_ids.erase u := fun h => ((he.mem_erase_iff.mp h).1 rfl)
    simp [List.nodup_append, he.erase u, this]
  · intro x hx
    rcases List.mem_append.mp hx with hx | hx
    · intro h
      exact hd x (List.erase_subset _ _ hx) (List.erase_subset _ _ h)
    · simp at hx
      subst hx
      intro h
      exact (hv.mem_erase_iff.mp h).1 rfl
  · simp only [List.mem_append, List.mem_singleton]
    push_neg
    exact ⟨fun h => ho1 (List.erase_subset _ _ h), fun h => h3 h.symm⟩

/-- Moving a non-owner user into the viewer set preserves the invariant. -/
theorem treeWf_move_viewer (t : Tree) (u : UserId) (hwf : TreeWf t) (h3 : u ≠ t.owner_id) :
    TreeWf { t with editor_ids := t.editor_ids.erase u,
                    viewer_ids := t.viewer_ids.erase u ++ [u] } := by
  obtain ⟨he, hv, hd, ho1, ho2⟩ := hwf
  refine ⟨he.erase u, ?_, ?_, fun h => ho1 (List.erase_subset _ _ h), ?_⟩
  · have : u ∉ t.viewer_ids.erase u := fun h => ((hv.mem_erase_iff.mp h).1 rfl)
    simp [List.nodup_append, hv.erase u, this]
  · intro x hx
    have hxne : x ≠ u := fun hxu => ((he.mem_erase_iff.mp (hxu ▸ hx)).1 rfl)
    simp only [List.mem_append, List.mem_singleton]
    push_neg
    exact ⟨fun h => hd x (List.erase_subset _ _ hx) (List.erase_subset _ _ h), hxne⟩
  · simp only [List.mem_append, List.mem_singleton]
    push_neg
    exact ⟨fun h => ho2 (List.erase_subset _ _ h), fun h => h3 h.symm⟩

/-- `share_tree` preserves the table-wide role invariant. -/
theorem share_tree_wf (db : DB) (tree_id : TreeId) (user : Option UserId)
    (payload : SharePayload)
    (hids : (db.trees.map Tree.id).Nodup)
    (hwf : ∀ t ∈ db.trees, TreeWf t) :
    ∀ t1 ∈ (share_tree db tree_id user payload).2.trees, TreeWf t1 := by
  unfold share_tree
  dsimp only
  repeat' split
  any_goals exact hwf
  · rename_i xopt td hfind hown uopt u hmail hdup hrole
    have howner2 : user = some td.owner_id := by
      simp only [bne_iff_ne, ne_eq, not_not] at hown
      exact hown.symm
    simp only [Bool.or_eq_true, beq_iff_eq, List.elem_iff, not_or] at hdup
    obtain ⟨⟨h1, h2⟩, h3⟩ := hdup
    have hne : u ≠ td.owner_id := fun h => h1 (by rw [howner2, h])
    exact updateTree_wf db tree_id _ td hids hwf hfind
      (treeWf_append_editor td u (hwf td (findTree_mem db tree_id td hfind).1) h2 h3 hne)
  · rename_i xopt td hfind hown uopt u hmail hdup hnotE hrole
    have howner2 : user = some td.owner_id := by
      simp only [bne_iff_ne, ne_eq, not_not] at hown
      exact hown.symm
    simp only [Bool.or_eq_true, beq_iff_eq, List.elem_iff, not_or] at hdup
    obtain ⟨⟨h1, h2⟩, h3⟩ := hdup
    have hne : u ≠ td.owner_id := fun h => h1 (by rw [howner2, h])
    exact updateTree_wf db tree_id _ td hids hwf hfind
      (treeWf_append_viewer td u (hwf td (findTree_mem db tree_id td hfind).1) h2 h3 hne)

/-- `revoke_tree_access` preserves the table-wide role invariant. -/
theorem revoke_tree_access_wf (db : DB) (tree_id : TreeId) (user : Option UserId)
    (payload : RevokePayload)
    (hids : (db.trees.map Tree.id).Nodup)
    (hwf : ∀ t ∈ db.trees, TreeWf t) :
    ∀ t1 ∈ (revoke_tree_access db tree_id user payload).2.trees, TreeWf t1 := by
  unfold revoke_tree_access
  dsimp only
  repeat' split
  any_goals exact hwf
  · rename_i xopt td hfind hown hself hmem
    exact updateTree_wf db tree_id _ td hids hwf hfind
      (treeWf_erase_editor td _ (hwf td (findTree_mem db tree_id td hfind).1))
  · rename_i xopt td hfind hown hself hnotE hmem
    exact updateTree_wf db tree_id _ td hids hwf hfind
      (treeWf_erase_viewer td _ (hwf td (findTree_mem db tree_id td hfind).1))

/-- `change_tree_permission` preserves the table-wide role invariant. -/
theorem change_tree_permission_wf (db : DB) (tree_id : TreeId) (user : Option UserId)
    (payload : ChangePermPayload)
    (hids : (db.trees.map Tree.id).Nodup)
    (hwf : ∀ t ∈ db.trees, TreeWf t) :
    ∀ t1 ∈ (change_tree_permission db tree_id user payload).2.trees, TreeWf t1 := by
  unfold change_tree_permission
  dsimp only
  repeat' split
  any_goals exact hwf
  all_goals rename_i xopt td hfind hown hself hboth hrole
  all_goals
    have howner2 : user = some td.owner_id := by
      simp only [bne_iff_ne, ne_eq, not_not] at hown
      exact hown.symm
    have hne : payload.user_id_to_change.getD "" ≠ td.owner_id := by
      intro h
      apply hself
      simp only [beq_iff_eq, howner2, Option.some_inj]
      exact h
  · exact updateTree_wf db tree_id _ td hids hwf hfind
      (treeWf_move_editor td _ (hwf td (findTree_mem db tree_id td hfind).1) hne)
  · exact updateTree_wf db tree_id _ td hids hwf hfind
      (treeWf_move_viewer td _ (hwf td (findTree_mem db tree_id td hfind).1) hne)

/-- `process_invitation` preserves the table-wide role invariant. -/
theorem process_invitation_wf (db : DB) (now : Int) (token : String) (u : UserId)
    (hids : (db.trees.map Tree.id).Nodup)
    (hwf : ∀ t ∈ db.trees, TreeWf t) :
    ∀ t1 ∈ (process_invitation db now token u).2.trees, TreeWf t1 := by
  unfold process_invitation
  dsimp only
  repeat' split
  any_goals exact hwf
  · rename_i iopt inv hfind hexp hfull hused topt tr htree hnotmem hrole
    simp only [Bool.not_eq_eq_eq_not, Bool.not_true, Bool.or_eq_false_iff, beq_eq_false_iff_ne,
      ne_eq, List.elem_eq_mem, decide_eq_false_iff_not] at hnotmem
    obtain ⟨⟨hne, he⟩, hv⟩ := hnotmem
    exact updateTree_wf db inv.tree_id _ tr hids hwf htree
      (treeWf_append_editor tr u (hwf tr (findTree_mem db inv.tree_id tr htree).1) he hv hne)
  · rename_i iopt inv hfind hexp hfull hused topt tr htree hnotmem hrole1 hrole2
    simp only [Bool.not_eq_eq_eq_not, Bool.not_true, Bool.or_eq_false_iff, beq_eq_false_iff_ne,
      ne_eq, List.elem_eq_mem, decide_eq_false_iff_not] at hnotmem
    obtain ⟨⟨hne, he⟩, hv⟩ := hnotmem
    exact updateTree_wf db inv.tree_id _ tr hids hwf htree
      (treeWf_append_viewer tr u (hwf tr (findTree_mem db inv.tree_id tr htree).1) he hv hne)

/-- C6: starting from any database whose tree rows have duplicate-free editor and
viewer sets that are disjoint and exclude the owner (`TreeWf`, with distinct tree
identifiers as the primary key guarantees), every sharing operation (`share_tree`,
`revoke_tree_access`, `change_tree_permission`) and every invitation consumption
(`process_invitation`) preserves the invariant: afterwards every tree row is again
well-formed, its owner identifier is in neither membership set, and no user
identifier appears in both sets. -/
theorem role_ops_preserve_owner_free_disjoint (db : DB)
    (hids : (db.trees.map Tree.id).Nodup)
    (hwf : ∀ t ∈ db.trees, TreeWf t) :
    (∀ tree_id user payload, ∀ t1 ∈ (share_tree db tree_id user payload).2.trees,
      TreeWf t1 ∧ t1.owner_id ∉ t1.editor_ids ∧ t1.owner_id ∉ t1.viewer_ids ∧
      ∀ v, ¬(v ∈ t1.editor_ids ∧ v ∈ t1.viewer_ids)) ∧
    (∀ tree_id user payload, ∀ t1 ∈ (revoke_tree_access db tree_id user payload).2.trees,
      TreeWf t1 ∧ t1.owner_id ∉ t1.editor_ids ∧ t1.owner_id ∉ t1.viewer_ids ∧
      ∀ v, ¬(v ∈ t1.editor_ids ∧ v ∈ t1.viewer_ids)) ∧
    (∀ tree_id user payload, ∀ t1 ∈ (change_tree_permission db tree_id user payload).2.trees,
      TreeWf t1 ∧ t1.owner_id ∉ t1.editor_ids ∧ t1.owner_id ∉ t1.viewer_ids ∧
      ∀ v, ¬(v ∈ t1.editor_ids ∧ v ∈ t1.viewer_ids)) ∧
    (∀ now token u, ∀ t1 ∈ (process_invitation db now token u).2.trees,
      TreeWf t1 ∧ t1.owner_id ∉ t1.editor_ids ∧ t1.owner_id ∉ t1.viewer_ids ∧
      ∀ v, ¬(v ∈ t1.editor_ids ∧ v ∈ t1.viewer_ids)) := by
  refine ⟨?_, ?_, ?_, ?_⟩
  · intro tree_id user payload t1 ht1
    have h := share_tree_wf db tree_id user payload hids hwf t1 ht1
    exact ⟨h, h.2.2.2.1, h.2.2.2.2, fun v hv => h.2.2.1 v hv.1 hv.2⟩
  · intro tree_id user payload t1 ht1
    have h := revoke_tree_access_wf db tree_id user payload hids hwf t1 ht1
    exact ⟨h, h.2.2.2.1, h.2.2.2.2, fun v hv => h.2.2.1 v hv.1 hv.2⟩
  · intro tree_id user payload t1 ht1
    have h := change_tree_permission_wf db tree_id user payload hids hwf t1 ht1
    exact ⟨h, h.2.2.2.1, h.2.2.2.2, fun v hv => h.2.2.1 v hv.1 hv.2⟩
  · intro now token u t1 ht1
    have h := process_invitation_wf db now token u hids hwf t1 ht1
    exact ⟨h, h.2.2.2.1, h.2.2.2.2, fun v hv => h.2.2.1 v hv.1 hv.2⟩

/-- Witness for `role_ops_preserve_owner_free_disjoint`: sharing `treeX` with the
fresh user `B` as editor yields exactly one tree row, which is still
well-formed. -/
theorem role_ops_preserve_owner_free_disjoint_witness :
    (share_tree (dbX (some 1) []) "T1" (some "OWN")
        { email := some "b@example.com", role := some "editor" }).2.trees
      = [{ treeX with editor_ids := ["ED", "B"] }] ∧
    TreeWf { treeX with editor_ids := ["ED", "B"] } := by
  refine ⟨by decide, ?_⟩
  exact ((role_ops_preserve_owner_free_disjoint (dbX (some 1) []) (by decide)
    (by decide)).1 "T1" (some "OWN")
    { email := some "b@example.com", role := some "editor" }
    { treeX with editor_ids := ["ED", "B"] } (by decide)).1

/-- C5 counterexample: the validation only inspects `photo` fields that are strings
(`isinstance(person_data["photo"], str)`), while the data model also carries
object-shaped photos (`{"url": ...}` — the delete path reads exactly that shape).  A
person added with the photo object `{"url": "javascript:alert(1)"}` — whose photo URL
begins with `javascript:` — is not rejected: the batch succeeds and the dangerous
record is written. -/
theorem url_validation_object_photo_bypass_cx :
    (batch_update_persons (dbX none []) envX "T1" (some "OWN")
        { add := [{ id := 1, photo := some (.obj (some "javascript:alert(1)")),
                    documents := none }],
          modify := [], delete := [] }).1
      = okResp "Batch update successful." ∧
    (batch_update_persons (dbX none []) envX "T1" (some "OWN")
        { add := [{ id := 1, photo := some (.obj (some "javascript:alert(1)")),
                    documents := none }],
          modify := [], delete := [] }).2.persons
      = [{ tree_id := "T1", id := 1,
           data := { id := 1, photo := some (.obj (some "javascript:alert(1)")),
                     documents := none } }] := by
  decide

/-- A dangerous URL is never empty after normalisation, so it always trips the
per-URL check. -/
theorem urlViolates_of_dangerous (s : String)
    (h : urlDangerous (pyToLower (pyTrim s)) = true) :
    urlViolates s = true := by
  unfold urlViolates
  have hne : (pyToLower (pyTrim s) != "") = true := by
    by_cases he : pyToLower (pyTrim s) = ""
    · rw [he] at h
      exact absurd h (by decide)
    · simpa using he
  simp only [hne, Bool.true_and, h, Bool.or_true, Bool.and_true]

/-- A person whose validation fails produces a 400 response. -/
theorem validatePerson_status (p : PersonData) (r : Response)
    (h : validatePerson p = some r) : r.status = 400 := by
  unfold validatePerson at h
  split at h
  · cases h
    rfl
  · split at h
    · cases h
      rfl
    · cases h

/-- C5 (amended): for every person record in the add or modify lists whose photo
field is a *string* whose normalised value begins with `javascript:`, `data:` or
`vbscript:`, or one of whose document objects carries such a *string* `url`, the
batch request is rejected with a 400 validation error before any person data is
written or any file is deleted (URLs supplied in non-string shapes, e.g. an
object-valued photo, bypass the validation — see the counterexample). -/
theorem url_validation_rejects_dangerous_string_urls (db : DB) (env : Env)
    (tree_id : TreeId) (user : Option UserId) (payload : BatchPayload) (p : PersonData)
    (hp : p ∈ payload.add ++ payload.modify)
    (hdanger :
      (∃ s, p.photo = some (.str s) ∧ urlDangerous (pyToLower (pyTrim s)) = true) ∨
      (∃ docs, p.documents = some docs ∧
        ∃ d ∈ docs, ∃ s, d.url = some s ∧ urlDangerous (pyToLower (pyTrim s)) = true))
    (perms : Perms)
    (hperm : get_tree_and_user_permissions db tree_id user = some perms)
    (hedit : perms.can_edit = true) :
    (batch_update_persons db env tree_id user payload).1.status = 400 ∧
    (batch_update_persons db env tree_id user payload).2 = db := by
  have hviol : validatePerson p ≠ none := by
    rcases hdanger with ⟨s, hps, hs⟩ | ⟨docs, hpd, d, hd, s, hds, hs⟩
    · unfold validatePerson photoViolation
      rw [hps]
      simp [urlViolates_of_dangerous s hs]
    · have hdoc : docViolation p = true := by
        unfold docViolation
        rw [hpd]
        refine List.any_eq_true.mpr ⟨d, hd, ?_⟩
        rw [hds]
        exact urlViolates_of_dangerous s hs
      unfold validatePerson
      rw [hdoc]
      split <;> simp
  have hvb : validateBatch payload ≠ none := by
    intro h
    unfold validateBatch at h
    rw [List.findSome?_eq_none_iff] at h
    exact hviol (h p hp)
  obtain ⟨r, hr⟩ := Option.ne_none_iff_exists'.mp hvb
  obtain ⟨q, _, hq⟩ := List.exists_of_findSome?_eq_some hr
  have hr400 : r.status = 400 := validatePerson_status q r hq
  unfold batch_update_persons
  rw [hperm]
  simp only [hedit, Bool.not_true, Bool.false_eq_true, if_false, hr]
  exact ⟨hr400, trivial⟩

/-- Witness for `url_validation_rejects_dangerous_string_urls`: adding a person whose
string photo is `"  JavaScript:alert(1)"` (leading whitespace, mixed case) yields a
400 and leaves the database untouched. -/
theorem url_validation_rejects_dangerous_string_urls_witness :
    (batch_update_persons (dbX none []) envX "T1" (some "OWN")
        { add := [{ id := 1, photo := some (.str "  JavaScript:alert(1)"),
                    documents := none }],
          modify := [], delete := [] }).1.status = 400 ∧
    (batch_update_persons (dbX none []) envX "T1" (some "OWN")
        { add := [{ id := 1, photo := some (.str "  JavaScript:alert(1)"),
                    documents := none }],
          modify := [], delete := [] }).2 = dbX none [] :=
  url_validation_rejects_dangerous_string_urls (dbX none []) envX "T1" (some "OWN")
    { add := [{ id := 1, photo := some (.str "  JavaScript:alert(1)"), documents := none }],
      modify := [], delete := [] }
    { id := 1, photo := some (.str "  JavaScript:alert(1)"), documents := none }
    (by decide)
    (Or.inl ⟨"  JavaScript:alert(1)", rfl, by decide⟩)
    { can_edit := true, can_view := true, tree := treeX }
    (by decide) rfl

/-- C9 counterexample: on `db9` the first call returns identifier `0` and caches it;
because `if new_ids_dict.get(tree_id):` is a truthiness test, the cached `0` is
falsy, so the second call consults the remote persons table again (contradicting
"without consulting the remote persons table") and returns `0` instead of the
previously returned identifier plus one (`1`) — the sequence repeats instead of
strictly increasing. -/
theorem new_id_cache_zero_cx :
    (get_new_id [] db9 "T1" (some "OWN")).resp.body = .jsonId 0 ∧
    (get_new_id [] db9 "T1" (some "OWN")).queried_persons = true ∧
    (get_new_id [] db9 "T1" (some "OWN")).cache = [("T1", 0)] ∧
    (get_new_id (get_new_id [] db9 "T1" (some "OWN")).cache db9 "T1"
        (some "OWN")).queried_persons = true ∧
    (get_new_id (get_new_id [] db9 "T1" (some "OWN")).cache db9 "T1"
        (some "OWN")).resp.body = .jsonId 0 := by
  decide

/-- Writing a cache entry makes it the value subsequent lookups return. -/
theorem cacheLookup_cacheSet (cache : IdCache) (tree_id : TreeId) (v : Int) :
    cacheLookup (cacheSet cache tree_id v) tree_id = some v := by
  unfold cacheLookup cacheSet
  by_cases h : cache.any (fun p => p.1 == tree_id) = true
  · simp only [h, if_true]
    rw [List.find?_map]
    have hcomp : ((fun p : TreeId × Int => p.1 == tree_id) ∘
        (fun p => if p.1 == tree_id then (p.1, v) else p)) =
        (fun p : TreeId × Int => p.1 == tree_id) := by
      funext q
      by_cases hq : q.1 = tree_id
      · simp [hq]
      · simp [hq]
    rw [hcomp]
    cases hfind : cache.find? (fun p => p.1 == tree_id) with
    | none =>
      obtain ⟨e, he, hpe⟩ := List.any_eq_true.mp h
      have hsome : (cache.find? (fun p => p.1 == tree_id)).isSome :=
        List.find?_isSome.mpr ⟨e, he, hpe⟩
      rw [hfind] at hsome
      cases hsome
    | some e0 =>
      have hp0 : (e0.1 == tree_id) = true := by simpa using List.find?_some hfind
      have hp1 : e0.1 = tree_id := by simpa using hp0
      simp [hp0, hp1]
  · simp only [h, Bool.false_eq_true, if_false]
    rw [List.find?_append]
    have hnone : cache.find? (fun p => p.1 == tree_id) = none := by
      cases hfind : cache.find? (fun p => p.1 == tree_id) with
      | none => rfl
      | some e0 =>
        have hp0 := List.find?_some hfind
        have hmem := List.mem_of_find?_eq_some hfind
        exact absurd (List.any_eq_true.mpr ⟨e0, hmem, hp0⟩) h
    rw [hnone]
    simp

/-- C9 (amended): once `get_new_id` has returned a *positive* identifier `v` for a
tree (so the process-local cache holds `v`), every subsequent call for that tree that
passes the permission checks returns `v + 1` without consulting the remote persons
table and re-caches `v + 1`, which is again positive — so the per-process sequence of
returned identifiers is strictly increasing; with a cached identifier of `0`
(reachable only through nonpositive client-chosen person identifiers) the truthiness
test falls through to a fresh table query instead (see the counterexample). -/
theorem new_id_cache_monotonic (cache : IdCache) (db : DB) (tree_id : TreeId)
    (user : Option UserId) (v : Int) (perms : Perms)
    (hc : cacheLookup cache tree_id = some v) (hv : 0 < v)
    (hperm : get_tree_and_user_permissions db tree_id user = some perms)
    (hedit : perms.can_edit = true) :
    (get_new_id cache db tree_id user).resp = { status := 200, body := .jsonId (v + 1) } ∧
    (get_new_id cache db tree_id user).queried_persons = false ∧
    cacheLookup (get_new_id cache db tree_id user).cache tree_id = some (v + 1) ∧
    0 < v + 1 := by
  have hvne : (v != 0) = true := by
    simp only [bne_iff_ne, ne_eq]
    omega
  unfold get_new_id
  rw [hperm]
  simp only [hedit, Bool.not_true, Bool.false_eq_true, if_false, hc, hvne, if_true]
  exact ⟨trivial, trivial, cacheLookup_cacheSet cache tree_id (v + 1), by omega⟩

/-- Witness for `new_id_cache_monotonic`: with `5` cached for tree `T1`, the next
call returns `6` from the cache alone. -/
theorem new_id_cache_monotonic_witness :
    (get_new_id [("T1", 5)] (dbX none []) "T1" (some "OWN")).resp
      = { status := 200, body := .jsonId 6 } ∧
    (get_new_id [("T1", 5)] (dbX none []) "T1" (some "OWN")).queried_persons = false ∧
    cacheLookup (get_new_id [("T1", 5)] (dbX none []) "T1" (some "OWN")).cache "T1"
      = some 6 ∧
    (0 : Int) < 6 :=
  new_id_cache_monotonic [("T1", 5)] (dbX none []) "T1" (some "OWN") 5
    { can_edit := true, can_view := true, tree := treeX }
    (by decide) (by decide) (by decide) rfl

/-- C8 counterexample: deleting person 1 when the storage removal fails.  The remote
transaction has already committed — the person row is gone and is not rolled back —
but the `storage.remove` call sits *inside* the handler's `try`, so its failure is
`not` silently ignored: the handler answers a 500 error instead of reporting
success (and the orphaned file remains in storage). -/
theorem batch_file_cleanup_failure_cx :
    (batch_update_persons db8 env8 "T1" (some "OWN")
        { add := [], modify := [], delete := [1] }).1
      = errResp 500 "Error during batch processing: storage error" ∧
    (batch_update_persons db8 env8 "T1" (some "OWN")
        { add := [], modify := [], delete := [1] }).2.persons = [] ∧
    (batch_update_persons db8 env8 "T1" (some "OWN")
        { add := [], modify := [], delete := [1] }).2.storage = ["T1/images/a.webp"] := by
  decide

/-- C8 (amended): the add/modify/delete mutations are applied as a single atomic
remote operation — if the remote transaction raises, the database is completely
unchanged — and a failure while deleting orphaned files afterwards does not roll the
data mutation back; the handler then, however, reports a 500 error rather than
success, because the storage call sits inside the same `try` block. -/
theorem batch_atomic_and_cleanup_failure :
    (∀ (db : DB) (env : Env) (tree_id : TreeId) (user : Option UserId)
       (payload : BatchPayload),
      env.rpc_fails = true → (batch_update_persons db env tree_id user payload).2 = db) ∧
    (∀ (db : DB) (env : Env) (tree_id : TreeId) (user : Option UserId)
       (payload : BatchPayload) (perms : Perms) (fs : List String),
      get_tree_and_user_permissions db tree_id user = some perms →
      perms.can_edit = true →
      validateBatch payload = none →
      filesToDelete db tree_id payload = .ok fs →
      fs ≠ [] →
      env.rpc_fails = false →
      env.storage_remove_fails = true →
      batch_update_persons db env tree_id user payload =
        (errResp 500 "Error during batch processing: storage error",
         applyBatch db tree_id payload)) := by
  constructor
  · intro db env tree_id user payload h
    unfold batch_update_persons
    repeat' split
    all_goals first
    | rfl
    | exact absurd h (by assumption)
  · intro db env tree_id user payload perms fs hperm hedit hval hfs hne hrpc hsrf
    have hfe : fs.isEmpty = false := by
      cases fs with
      | nil => exact absurd rfl hne
      | cons a l => rfl
    have hde : fs.dedup.isEmpty = false := by
      have hdne : fs.dedup ≠ [] := by simpa [List.dedup_eq_nil] using hne
      cases hd : fs.dedup with
      | nil => exact absurd hd hdne
      | cons a l => rfl
    unfold batch_update_persons
    rw [hperm]
    simp only [hedit, Bool.not_true, Bool.false_eq_true, if_false, hval, hfs, hrpc,
      hsrf, hfe, hde, Bool.not_false, if_true]

/-- Witness for `batch_atomic_and_cleanup_failure`: on `db8`, a failing remote
transaction leaves the state untouched, and a failing storage removal after a
successful transaction leaves the applied mutation in place with a 500 response. -/
theorem batch_atomic_and_cleanup_failure_witness :
    (batch_update_persons db8 { env8 with rpc_fails := true } "T1" (some "OWN")
        { add := [], modify := [], delete := [1] }).2 = db8 ∧
    batch_update_persons db8 env8 "T1" (some "OWN")
        { add := [], modify := [], delete := [1] }
      = (errResp 500 "Error during batch processing: storage error",
         applyBatch db8 "T1" { add := [], modify := [], delete := [1] }) := by
  constructor
  · exact batch_atomic_and_cleanup_failure.1 db8 { env8 with rpc_fails := true }
      "T1" (some "OWN") { add := [], modify := [], delete := [1] } rfl
  · exact batch_atomic_and_cleanup_failure.2 db8 env8 "T1" (some "OWN")
      { add := [], modify := [], delete := [1] }
      { can_edit := true, can_view := true, tree := treeX } ["T1/images/a.webp"]
      (by decide) rfl (by decide) rfl (by decide) rfl rfl

/-- One `process_invitation` call, seen from the invitation it operates on, does
exactly one of three things: it refuses (state unchanged), it re-serves a user who is
already in the usage record (state unchanged), or — only when the record is not
exhausted — it appends a new user to the usage record. -/
theorem process_invitation_cases (db : DB) (now : Int) (token : String) (u : UserId)
    (i : Invitation) (hf : findInvitation db token = some i) :
    (process_invitation db now token u = (none, db)) ∨
    (process_invitation db now token u = (some i.tree_id, db) ∧ u ∈ i.used_by_users) ∨
    ((process_invitation db now token u).1 = some i.tree_id ∧ u ∉ i.used_by_users ∧
      usageExhausted i.usage_limit i.used_by_users = false ∧
      findInvitation (process_invitation db now token u).2 token =
        some { i with used_by_users := i.used_by_users ++ [u] }) := by
  by_cases hexp : i.expires_at < now
  · left
    unfold process_invitation
    rw [hf]
    simp [hexp]
  · by_cases hfull : usageExhausted i.usage_limit i.used_by_users = true
    · left
      unfold process_invitation
      rw [hf]
      simp [hexp, hfull]
    · have hfull2 : usageExhausted i.usage_limit i.used_by_users = false :=
        Bool.eq_false_iff.mpr hfull
      by_cases hused : i.used_by_users.contains u = true
      · right
        left
        constructor
        · unfold process_invitation
          rw [hf]
          simp [hexp, hfull2, hused]
          intro hno
          exact absurd (List.elem_iff.mp hused) hno
        · exact List.elem_iff.mp hused
      · have hc : i.used_by_users.contains u = false := Bool.eq_false_iff.mpr hused
        have hnotmem : u ∉ i.used_by_users := fun hm => hused (List.elem_iff.mpr hm)
        cases ht : findTree db i.tree_id with
        | none =>
          left
          unfold process_invitation
          rw [hf]
          simp [hexp, hfull2, hc, ht]
          exact hnotmem
        | some tr =>
          right
          right
          have hstep : process_invitation db now token u =
              (some i.tree_id,
                updateInvitation
                  (if !(u == tr.owner_id || tr.editor_ids.contains u ||
                        tr.viewer_ids.contains u) then
                    if i.role == "editor" then
                      updateTree db i.tree_id
                        (fun t => { t with editor_ids := tr.editor_ids ++ [u] })
                    else if i.role == "viewer" then
                      updateTree db i.tree_id
                        (fun t => { t with viewer_ids := tr.viewer_ids ++ [u] })
                    else db
                  else db)
                  token
                  (fun j => { j with used_by_users := i.used_by_users ++ [u] })) := by
            unfold process_invitation
            rw [hf]
            simp only [if_neg hexp, hfull2, Bool.false_eq_true, if_false, hc]
            rw [ht]
          refine ⟨by rw [hstep], hnotmem, hfull2, ?_⟩
          rw [hstep]
          apply findInvitation_updateInvitation _ token
            (fun j => { j with used_by_users := i.used_by_users ++ [u] }) (fun j => rfl) i
      -- the intermediate state has the same invitations table as db
          unfold findInvitation at hf ⊢
          split
          · split
            · exact hf
            · split
              · exact hf
              · exact hf
          · exact hf

/-- The invariant carried along any sequence of join attempts: the invitation keeps
its limit, its usage record stays duplicate-free and within the limit, it only ever
grows, and every user ever granted access appears in it. -/
theorem run_invariant (token : String) (N : Nat) (attempts : List (Int × UserId)) :
    ∀ (db : DB) (i : Invitation),
      findInvitation db token = some i →
      i.usage_limit = some N →
      i.used_by_users.Nodup →
      i.used_by_users.length ≤ N →
      ∃ i2, findInvitation (runInvitations token db attempts) token = some i2 ∧
        i2.usage_limit = some N ∧
        i2.used_by_users.Nodup ∧
        i2.used_by_users.length ≤ N ∧
        (∀ x ∈ i.used_by_users, x ∈ i2.used_by_users) ∧
        (∀ x ∈ grantedUsers token db attempts, x ∈ i2.used_by_users) := by
  induction attempts with
  | nil =>
    intro db i hf hN hnd hlen
    exact ⟨i, hf, hN, hnd, hlen, fun x hx => hx, by simp [grantedUsers]⟩
  | cons a rest ih =>
    intro db i hf hN hnd hlen
    rcases process_invitation_cases db a.1 token a.2 i hf with hcase | ⟨heq, hmem⟩ |
      ⟨h1, hnotmem, hnotfull, hfind2⟩
    · obtain ⟨i2, hf2, hN2, hnd2, hlen2, hsub, hgr⟩ := ih db i hf hN hnd hlen
      refine ⟨i2, ?_, hN2, hnd2, hlen2, hsub, ?_⟩
      · simpa [runInvitations, hcase] using hf2
      · intro x hx
        rw [grantedUsers] at hx
        rw [hcase] at hx
        simp only [Option.isSome_none, Bool.false_eq_true, if_false, List.nil_append] at hx
        exact hgr x hx
    · obtain ⟨i2, hf2, hN2, hnd2, hlen2, hsub, hgr⟩ := ih db i hf hN hnd hlen
      refine ⟨i2, ?_, hN2, hnd2, hlen2, hsub, ?_⟩
      · simpa [runInvitations, heq] using hf2
      · intro x hx
        rw [grantedUsers] at hx
        rw [heq] at hx
        simp only [Option.isSome_some, if_true, List.singleton_append, List.mem_cons] at hx
        rcases hx with hx | hx
        · exact hsub x (hx ▸ hmem)
        · exact hgr x hx
    · have hlt : i.used_by_users.length < N := by
        unfold usageExhausted at hnotfull
        rw [hN] at hnotfull
        simpa using hnotfull
      have hnd1 : (i.used_by_users ++ [a.2]).Nodup := by
        simp [List.nodup_append, hnd, hnotmem]
      have hlen1 : (i.used_by_users ++ [a.2]).length ≤ N := by
        simp only [List.length_append, List.length_singleton]
        omega
      obtain ⟨i2, hf2, hN2, hnd2, hlen2, hsub, hgr⟩ :=
        ih (process_invitation db a.1 token a.2).2
          { i with used_by_users := i.used_by_users ++ [a.2] } hfind2 hN hnd1 hlen1
      refine ⟨i2, ?_, hN2, hnd2, hlen2, ?_, ?_⟩
      · simpa [runInvitations] using hf2
      · intro x hx
        exact hsub x (by simp [hx])
      · intro x hx
        rw [grantedUsers] at hx
        simp only [h1, Option.isSome_some, if_true, List.singleton_append,
          List.mem_cons] at hx
        rcases hx with hx | hx
        · exact hsub x (by simp [hx])
        · exact hgr x hx

/-- An exhausted invitation refuses every consumption attempt, whatever the user. -/
theorem process_invitation_exhausted (db : DB) (now : Int) (token : String) (u : UserId)
    (i : Invitation) (hf : findInvitation db token = some i)
    (hfull : usageExhausted i.usage_limit i.used_by_users = true) :
    process_invitation db now token u = (none, db) := by
  unfold process_invitation
  rw [hf]
  by_cases hexp : i.expires_at < now
  · simp [hexp]
  · simp [hexp, hfull]

/-- `join_by_token` renders the invalid-link page (status 400) for an exhausted
invitation, whether or not a session user is present. -/
theorem join_by_token_exhausted (db : DB) (now : Int) (token : String)
    (su : Option UserId) (i : Invitation) (hf : findInvitation db token = some i)
    (hfull : usageExhausted i.usage_limit i.used_by_users = true) :
    join_by_token db now token su =
      ({ status := 400, body := .htmlPage "invalid_link.html" }, db) := by
  unfold join_by_token
  rw [hf]
  simp [hfull]

/-- C3: for an invitation created with `usage_limit = N` and an empty usage record,
any sequence of join attempts grants access to at most `N` distinct users; and once
`N` distinct users have been granted, every further attempt — by any user, new or
returning — is refused: `process_invitation` returns `none` without mutating the
state and `join_by_token` renders the invalid-link page with status 400. -/
theorem invitation_usage_limit_enforced (db : DB) (token : String) (N : Nat)
    (i : Invitation) (attempts : List (Int × UserId))
    (hf : findInvitation db token = some i)
    (hN : i.usage_limit = some N)
    (h0 : i.used_by_users = []) :
    (grantedUsers token db attempts).toFinset.card ≤ N ∧
    ((grantedUsers token db attempts).toFinset.card = N →
      ∀ (now : Int) (u : UserId) (su : Option UserId),
        process_invitation (runInvitations token db attempts) now token u =
          (none, runInvitations token db attempts) ∧
        join_by_token (runInvitations token db attempts) now token su =
          ({ status := 400, body := .htmlPage "invalid_link.html" },
           runInvitations token db attempts)) := by
  obtain ⟨i2, hf2, hN2, hnd2, hlen2, hsub, hgr⟩ :=
    run_invariant token N attempts db i hf hN (by simp [h0]) (by simp [h0])
  have hsubF : (grantedUsers token db attempts).toFinset ⊆ i2.used_by_users.toFinset := by
    intro x hx
    simp only [List.mem_toFinset] at hx ⊢
    exact hgr x hx
  have hcards : (grantedUsers token db attempts).toFinset.card ≤ i2.used_by_users.length := by
    have h2 := Finset.card_le_card hsubF
    rwa [List.toFinset_card_of_nodup hnd2] at h2
  constructor
  · omega
  · intro hcard now u su
    have hfull : usageExhausted i2.usage_limit i2.used_by_users = true := by
      rw [hN2]
      unfold usageExhausted
      simp only [decide_eq_true_eq]
      omega
    exact ⟨process_invitation_exhausted _ now token u i2 hf2 hfull,
           join_by_token_exhausted _ now token su i2 hf2 hfull⟩

/-- Witness for `invitation_usage_limit_enforced`: a single-use invitation on `dbX`
consumed once by the fresh user `B`; afterwards user `C` is refused by
`process_invitation` and gets the invalid-link page from `join_by_token`. -/
theorem invitation_usage_limit_enforced_witness :
    (grantedUsers "tok" (dbX (some 1) []) [(0, "B")]).toFinset.card ≤ 1 ∧
    process_invitation (runInvitations "tok" (dbX (some 1) []) [(0, "B")]) 0 "tok" "C" =
      (none, runInvitations "tok" (dbX (some 1) []) [(0, "B")]) ∧
    join_by_token (runInvitations "tok" (dbX (some 1) []) [(0, "B")]) 0 "tok" (some "C") =
      ({ status := 400, body := .htmlPage "invalid_link.html" },
       runInvitations "tok" (dbX (some 1) []) [(0, "B")]) := by
  have h := invitation_usage_limit_enforced (dbX (some 1) []) "tok" 1 (invX (some 1) [])
    [(0, "B")] (by decide) rfl rfl
  exact ⟨h.1, (h.2 (by decide) 0 "C" (some "C")).1, (h.2 (by decide) 0 "C" (some "C")).2⟩

end FamilyNest
